import Mathlib

/-!
Shallow embedding of the kcloud cost estimator core
(`src/kepler_client/client.py` and `src/main.py`): the Kepler/Prometheus
metric correlation pass, time-window parsing, node enrichment, health
check, and the cost calculator.  Float64 values (joules, timestamps,
rates) are embedded as exact rationals; Python exceptions are embedded as
`Except String`.
-/

/-- Label set of a Prometheus series, the `series["metric"]` mapping,
as an ordered list of key-value pairs. -/
abbrev Labels := List (String × String)

/-- Embeds `metric.get(key, dflt)`: the first value bound to `key`,
else the default. -/
def getLabel (labels : Labels) (key dflt : String) : String :=
  match labels.find? (fun p => p.1 == key) with
  | some p => p.2
  | none => dflt

/-- One series of an instant-query result: its labels plus the optional
`value` field `[timestamp, value]`.  `none` models a missing or too-short
`value`, i.e. the `value_data and len(value_data) > 1` guard failing. -/
structure InstantSeries where
  labels : Labels
  value : Option (ℚ × ℚ)
deriving DecidableEq

/-- The five container metric types of the `queries` dict in
`get_all_container_metrics`, in its (insertion) iteration order. -/
inductive CMetric
  | total
  | cpu
  | gpu
  | memory
  | other
deriving DecidableEq

/-- Embeds `ContainerPowerData`.  The defining module `models.py` is not in
`src/`; the fields are those constructed and assigned in `client.py`:
the constructor arguments of `get_all_container_metrics` /
`get_container_power_metrics`, plus the five dynamically `setattr`-assigned
`{metric_type}_power_joules` component fields (spec section 3 components).
An `Option` component is `none` while the attribute was never assigned.
`container_namespace` renders the Python field `namespace` (a Lean
keyword). -/
structure ContainerPowerData where
  container_name : String
  pod_name : String
  container_namespace : String
  node_name : String
  power_joules : ℚ
  total_power_joules : Option ℚ
  cpu_power_joules : Option ℚ
  gpu_power_joules : Option ℚ
  memory_power_joules : Option ℚ
  other_power_joules : Option ℚ
  timestamp : ℚ
  labels : Labels
deriving DecidableEq

/-- Embeds `setattr(record, f"{metric_type}_power_joules", v)`. -/
def setComponent (mt : CMetric) (v : ℚ) (r : ContainerPowerData) : ContainerPowerData :=
  match mt with
  | .total => { r with total_power_joules := some v }
  | .cpu => { r with cpu_power_joules := some v }
  | .gpu => { r with gpu_power_joules := some v }
  | .memory => { r with memory_power_joules := some v }
  | .other => { r with other_power_joules := some v }

/-- Reads the component field assigned for one metric type. -/
def getComponent (mt : CMetric) (r : ContainerPowerData) : Option ℚ :=
  match mt with
  | .total => r.total_power_joules
  | .cpu => r.cpu_power_joules
  | .gpu => r.gpu_power_joules
  | .memory => r.memory_power_joules
  | .other => r.other_power_joules

/-- Correlation key of the container scope: the
`(container_name, pod_name, container_namespace)` tuple. -/
abbrev ContainerKey := String × String × String

/-- Embeds the `container_key` tuple: recognized labels with the
`"unknown"` default. -/
def containerKey (labels : Labels) : ContainerKey :=
  (getLabel labels "container_name" "unknown",
   getLabel labels "pod_name" "unknown",
   getLabel labels "container_namespace" "unknown")

/-- Insertion-ordered embedding of the Python dict `containers_map`. -/
abbrev CMap := List (ContainerKey × ContainerPowerData)

/-- Embeds `containers_map.get(container_key)` / the
`container_key not in containers_map` test: the value bound to the first
(with dict semantics: only) entry carrying the key. -/
def lookupC (m : CMap) (k : ContainerKey) : Option ContainerPowerData :=
  match m with
  | [] => none
  | p :: rest => if p.1 == k then some p.2 else lookupC rest k

/-- Embeds `containers_map[container_key] = r` for a key already present
(dict update in place, order kept). -/
def updateC (m : CMap) (k : ContainerKey) (r : ContainerPowerData) : CMap :=
  m.map (fun p => if p.1 == k then (k, r) else p)

/-- Embeds the `ContainerPowerData(...)` shell created on first sight of a
key: names from the key, node from the `instance` label, zero
`power_joules`, the sample timestamp, the series labels; no component
field assigned yet. -/
def newShell (k : ContainerKey) (labels : Labels) (ts : ℚ) : ContainerPowerData :=
  { container_name := k.1
    pod_name := k.2.1
    container_namespace := k.2.2
    node_name := getLabel labels "instance" "unknown"
    power_joules := 0
    total_power_joules := none
    cpu_power_joules := none
    gpu_power_joules := none
    memory_power_joules := none
    other_power_joules := none
    timestamp := ts
    labels := labels }

/-- Embeds the body of the inner `for series in result...` loop of
`get_all_container_metrics`: guard on `value`, derive the key, create the
shell when unseen, then `setattr` this metric type's component. -/
def mergeSeries (mt : CMetric) (m : CMap) (s : InstantSeries) : CMap :=
  match s.value with
  | none => m
  | some (ts, v) =>
    let k := containerKey s.labels
    match lookupC m k with
    | some r => updateC m k (setComponent mt v r)
    | none => m ++ [(k, setComponent mt v (newShell k s.labels ts))]

/-- Processing of one metric type's query result: the inner loop folded
over its series in order. -/
def mergePhase (mt : CMetric) (m : CMap) (ss : List InstantSeries) : CMap :=
  ss.foldl (mergeSeries mt) m

/-- Iteration order of the `queries` dict of `get_all_container_metrics`. -/
def containerQueries : List CMetric :=
  [.total, .cpu, .gpu, .memory, .other]

/-- Embeds `get_all_container_metrics(namespace, limit)`.  The backend is
abstracted as one query result per metric type.  There is no per-query
`try` in the source: a failing query propagates through the single outer
`except`, which logs and re-raises.  On success the dict values are
listed in insertion order and truncated to `limit`. -/
def get_all_container_metrics
    (backend : CMetric → Except String (List InstantSeries)) (limit : Nat) :
    Except String (List ContainerPowerData) :=
  match containerQueries.foldlM (fun m mt => (backend mt).map (mergePhase mt m)) ([] : CMap) with
  | .error e => .error e
  | .ok m => .ok ((m.map Prod.snd).take limit)

/-- The map built by one fully successful pass, named per phase: the five
query results processed in the dict order total, cpu, gpu, memory,
other. -/
def passMap (s1 s2 s3 s4 s5 : List InstantSeries) : CMap :=
  mergePhase .other
    (mergePhase .memory
      (mergePhase .gpu
        (mergePhase .cpu
          (mergePhase .total [] s1) s2) s3) s4) s5

/-- One series of a range-query result: labels plus the `values` list of
`[timestamp, value]` samples. -/
structure RangedSeries where
  labels : Labels
  values : List (ℚ × ℚ)
deriving DecidableEq

/-- Embeds the `ContainerPowerData(...)` built by
`get_container_power_metrics` from one sample of one series. -/
def rangedRecord (labels : Labels) (sample : ℚ × ℚ) : ContainerPowerData :=
  { container_name := getLabel labels "container_name" "unknown"
    pod_name := getLabel labels "pod_name" "unknown"
    container_namespace := getLabel labels "container_namespace" "unknown"
    node_name := getLabel labels "instance" "unknown"
    power_joules := sample.2
    total_power_joules := none
    cpu_power_joules := none
    gpu_power_joules := none
    memory_power_joules := none
    other_power_joules := none
    timestamp := sample.1
    labels := labels }

/-- Embeds the result-parsing loop of `get_container_power_metrics`: for
each series, `if values:` then build a record from
`values[-1] = values[len(values) - 1]`. -/
def get_container_power_metrics (result : List RangedSeries) : List ContainerPowerData :=
  result.foldl
    (fun acc s =>
      if s.values.isEmpty then acc
      else acc ++ [rangedRecord s.labels ((s.values[s.values.length - 1]?).getD (0, 0))])
    []

/-- Numeric value of a list of decimal digit characters. -/
def digitsVal (cs : List Char) : Nat :=
  cs.foldl (fun a c => 10 * a + (c.toNat - 48)) 0

/-- Models Python `int(str)` on the inputs this client meets: an optional
sign followed by one or more decimal digits parses to that integer;
anything else (empty string, non-digit characters) raises `ValueError`,
modelled as `none`. -/
def pyInt (s : String) : Option Int :=
  match s.data with
  | [] => none
  | c :: cs =>
    if c = '-' then
      if cs ≠ [] ∧ cs.all Char.isDigit then some (-(digitsVal cs : Int)) else none
    else if c = '+' then
      if cs ≠ [] ∧ cs.all Char.isDigit then some ((digitsVal cs : Int)) else none
    else if (c :: cs).all Char.isDigit then some ((digitsVal (c :: cs) : Int)) else none

/-- Embeds Python `s.endswith(c)` for a one-character suffix: true iff
the string is non-empty and its last character is `c`. -/
def pyEndsWith (s : String) (c : Char) : Bool :=
  match s.data.getLast? with
  | some d => d == c
  | none => false

/-- Embeds the Python slice `s[:-1]`: the string without its last
character (the empty string stays empty). -/
def pyDropLast (s : String) : String :=
  String.mk s.data.dropLast

/-- Embeds `_parse_time_range`, with the returned `timedelta` rendered as
its total seconds.  The suffix tests are `str.endswith` in the source
order m, h, d; the prefix goes through `int(time_range[:-1])`, whose
`ValueError` propagates (there is no handler), modelled as `.error`;
a token with no recognized suffix yields the 5-minute (300 s) default. -/
def parse_time_range (time_range : String) : Except String Int :=
  if pyEndsWith time_range 'm' then
    match pyInt (pyDropLast time_range) with
    | some n => .ok (60 * n)
    | none => .error "ValueError"
  else if pyEndsWith time_range 'h' then
    match pyInt (pyDropLast time_range) with
    | some n => .ok (3600 * n)
    | none => .error "ValueError"
  else if pyEndsWith time_range 'd' then
    match pyInt (pyDropLast time_range) with
    | some n => .ok (86400 * n)
    | none => .error "ValueError"
  else .ok 300

/-- Report dict returned by `health_check` (the wall-clock `timestamp`
entry is elided).  `errMsg` is the `error` entry of the exception path. -/
structure HealthReport where
  prometheus : Bool
  kepler : Bool
  status : String
  errMsg : Option String
deriving DecidableEq

/-- Embeds `health_check`.  The two effectful steps are abstracted as
their outcomes: `liveness` is the HTTP status of the GET on the healthy
endpoint (or a raised transport error), `keplerQuery` is the result list of
the instant query `up{job=~"kepler.*"}` (or a raised error, including the
`raise_for_status` of `_prometheus_query`).  Any raised error falls into
the single `except`, which returns the all-false unhealthy report. -/
def health_check (liveness : Except String Nat)
    (keplerQuery : Except String (List InstantSeries)) : HealthReport :=
  match liveness with
  | .error e => ⟨false, false, "unhealthy", some e⟩
  | .ok code =>
    match keplerQuery with
    | .error e => ⟨false, false, "unhealthy", some e⟩
    | .ok rs =>
      let ph := code == 200
      let kh := decide (0 < rs.length)
      ⟨ph, kh, if ph && kh then "healthy" else "unhealthy", none⟩

/-- The four per-component metric types of the `component_queries` dict of
`_enrich_node_metrics`, in its iteration order. -/
inductive NMetric
  | cpu
  | dram
  | uncore
  | pkg
deriving DecidableEq

/-- Embeds `NodePowerData` (its `models.py` definition is not in `src/`):
the constructor arguments of `get_node_power_metrics` plus the four
`setattr`-assigned `{component}_power_joules` fields, `none` while never
assigned. -/
structure NodePowerData where
  node_name : String
  platform_power_joules : ℚ
  cpu_power_joules : Option ℚ
  dram_power_joules : Option ℚ
  uncore_power_joules : Option ℚ
  pkg_power_joules : Option ℚ
  timestamp : ℚ
  labels : Labels
deriving DecidableEq

/-- Embeds `setattr(node, f"{component}_power_joules", v)`. -/
def setNodeComponent (c : NMetric) (v : ℚ) (n : NodePowerData) : NodePowerData :=
  match c with
  | .cpu => { n with cpu_power_joules := some v }
  | .dram => { n with dram_power_joules := some v }
  | .uncore => { n with uncore_power_joules := some v }
  | .pkg => { n with pkg_power_joules := some v }

/-- Embeds the record-building loop of `get_node_power_metrics` over the
`kepler_node_platform_joules_total` result: one `NodePowerData` per
series with a present `value`. -/
def buildNodes (ss : List InstantSeries) : List NodePowerData :=
  ss.foldl
    (fun acc s =>
      match s.value with
      | some (ts, v) =>
        acc ++ [⟨getLabel s.labels "instance" "unknown", v, none, none, none, none, ts, s.labels⟩]
      | none => acc)
    []

/-- Updates the first node of the list carrying `name`; the identity when
no node does. -/
def updateFirstNamed (f : NodePowerData → NodePowerData) (name : String) :
    List NodePowerData → List NodePowerData
  | [] => []
  | n :: rest =>
    if n.node_name == name then f n :: rest else n :: updateFirstNamed f name rest

/-- Embeds the `node_map` update of `_enrich_node_metrics`: the dict
comprehension `{node.node_name: node for node in nodes}` keeps, for a
duplicated name, the last such node, and `setattr` mutates that shared
object in place — so the last node of the list carrying `name` is
updated, and a name outside the map (`if node_name in node_map` guard)
updates nothing. -/
def updateLastNamed (f : NodePowerData → NodePowerData) (name : String)
    (nodes : List NodePowerData) : List NodePowerData :=
  (updateFirstNamed f name nodes.reverse).reverse

/-- Processing of one component query result inside
`_enrich_node_metrics`: each series with a present `value` assigns this
component on the node named by its `instance` label. -/
def enrichComponent (c : NMetric) (nodes : List NodePowerData)
    (ss : List InstantSeries) : List NodePowerData :=
  ss.foldl
    (fun acc s =>
      match s.value with
      | some (_, v) =>
        updateLastNamed (setNodeComponent c v) (getLabel s.labels "instance" "unknown") acc
      | none => acc)
    nodes

/-- Iteration order of the `component_queries` dict. -/
def nodeComponents : List NMetric :=
  [.cpu, .dram, .uncore, .pkg]

/-- Embeds `_enrich_node_metrics`: each component query runs under its own
`try`; a failing component is logged as a warning and skipped
(`continue`), leaving the node list as it was. -/
def enrich_node_metrics (backend : NMetric → Except String (List InstantSeries))
    (nodes : List NodePowerData) : List NodePowerData :=
  nodeComponents.foldl
    (fun acc c =>
      match backend c with
      | .ok ss => enrichComponent c acc ss
      | .error _ => acc)
    nodes

/-- Embeds `get_node_power_metrics`: the platform query
`kepler_node_platform_joules_total` anchors the pass — its failure
reaches the outer `except`, which logs and re-raises; on success the
records are built from its series and then enriched. -/
def get_node_power_metrics (platform : Except String (List InstantSeries))
    (backend : NMetric → Except String (List InstantSeries)) :
    Except String (List NodePowerData) :=
  match platform with
  | .error e => .error e
  | .ok ss => .ok (enrich_node_metrics backend (buildNodes ss))

/-- Cost result pair of the cost calculator. -/
structure CostResult where
  energy_cost_amount : ℚ
  carbon_mass_estimate : ℚ
deriving DecidableEq

/-- Configuration of the cost calculator, as constructed in `main.py`
from `electricity_rate`, `cooling_factor` and `carbon_rate`. -/
structure PowerCalculator where
  electricity_rate : ℚ
  cooling_factor : ℚ
  carbon_rate : ℚ
deriving DecidableEq

/-- Modelled from the spec: the module `power_metrics.py` defining
`PowerCalculator.calculateCost` (imported and called by `main.py`) is
absent from `src/`.  Spec section 4.6: kWh = joules / 3600000;
`energy_cost_amount` = kWh × electricityRate × coolingFactor;
`carbon_mass_estimate` = kWh × carbonRate; negative energy is clamped to
zero before conversion.  Exact rationals stand in for float64. -/
def calculateCost (pc : PowerCalculator) (energy_joules : ℚ) : CostResult :=
  let e := max energy_joules 0
  let kwh := e / 3600000
  ⟨kwh * pc.electricity_rate * pc.cooling_factor, kwh * pc.carbon_rate⟩

deriving instance DecidableEq for Except

/-- Key tuple recorded inside a container record's name fields. -/
def recordKey (r : ContainerPowerData) : ContainerKey :=
  (r.container_name, r.pod_name, r.container_namespace)

/-- Outcome of the backend-liveness check as the source computes it:
the probe returned (no exception) with HTTP status 200. -/
def livenessSucceeds : Except String Nat → Bool
  | .ok code => code == 200
  | .error _ => false

/-- Outcome of the data-presence check as the source computes it: the
instant query returned (no exception) with at least one series. -/
def dataPresent : Except String (List InstantSeries) → Bool
  | .ok rs => decide (0 < rs.length)
  | .error _ => false

theorem getComponent_setComponent_same (mt : CMetric) (v : ℚ) (r : ContainerPowerData) :
    getComponent mt (setComponent mt v r) = some v := by
  cases mt <;> rfl

theorem getComponent_setComponent_other (mt mt2 : CMetric) (v : ℚ) (r : ContainerPowerData)
    (h : mt2 ≠ mt) : getComponent mt2 (setComponent mt v r) = getComponent mt2 r := by
  cases mt <;> cases mt2 <;> first | rfl | exact absurd rfl h

theorem timestamp_setComponent (mt : CMetric) (v : ℚ) (r : ContainerPowerData) :
    (setComponent mt v r).timestamp = r.timestamp := by
  cases mt <;> rfl

theorem recordKey_setComponent (mt : CMetric) (v : ℚ) (r : ContainerPowerData) :
    recordKey (setComponent mt v r) = recordKey r := by
  cases mt <;> rfl

theorem getComponent_newShell (mt : CMetric) (k : ContainerKey) (labels : Labels) (ts : ℚ) :
    getComponent mt (newShell k labels ts) = none := by
  cases mt <;> rfl

theorem lookupC_nil (k : ContainerKey) : lookupC [] k = none := rfl

theorem lookupC_updateC_self (m : CMap) (k : ContainerKey) (r2 : ContainerPowerData) :
    lookupC (updateC m k r2) k = (lookupC m k).map (fun _ => r2) := by
  induction m with
  | nil => rfl
  | cons p m ih =>
    by_cases hp : (p.1 == k) = true
    · simp [updateC, lookupC, hp]
    · simp only [updateC, List.map_cons, lookupC, hp, Bool.false_eq_true, if_false]
      simpa [updateC] using ih

theorem lookupC_updateC_other (m : CMap) (k k2 : ContainerKey) (r2 : ContainerPowerData)
    (h : k2 ≠ k) : lookupC (updateC m k r2) k2 = lookupC m k2 := by
  induction m with
  | nil => rfl
  | cons p m ih =>
    by_cases hp : (p.1 == k) = true
    · have hk2 : ¬(k == k2) = true := by
        simp only [beq_iff_eq]
        exact fun hk => h hk.symm
      have hp2 : ¬(p.1 == k2) = true := by
        simp only [beq_iff_eq] at hp ⊢
        subst hp
        exact fun hk => h hk.symm
      simp only [updateC, List.map_cons, if_pos hp, lookupC, hk2, hp2, if_false]
      exact ih
    · simp only [updateC, List.map_cons, if_neg hp, lookupC]
      by_cases hq : (p.1 == k2) = true
      · simp [hq]
      · simp only [hq, if_false]
        exact ih

theorem lookupC_append_eq_some (m l : CMap) (k : ContainerKey) (r : ContainerPowerData)
    (h : lookupC m k = some r) : lookupC (m ++ l) k = some r := by
  induction m with
  | nil => simp [lookupC] at h
  | cons p m ih =>
    by_cases hp : (p.1 == k) = true
    · simpa [lookupC, hp] using h
    · simp only [lookupC, hp, if_false] at h
      simpa [lookupC, hp] using ih h

theorem lookupC_append_single_self (m : CMap) (k : ContainerKey) (r : ContainerPowerData)
    (h : lookupC m k = none) : lookupC (m ++ [(k, r)]) k = some r := by
  induction m with
  | nil => simp [lookupC]
  | cons p m ih =>
    by_cases hp : (p.1 == k) = true
    · simp [lookupC, hp] at h
    · simp only [lookupC, hp, if_false] at h
      simpa [lookupC, hp] using ih h

theorem lookupC_append_single_other (m : CMap) (k k2 : ContainerKey) (r : ContainerPowerData)
    (h : k2 ≠ k) : lookupC (m ++ [(k, r)]) k2 = lookupC m k2 := by
  induction m with
  | nil =>
    have hk : ¬(k == k2) = true := by
      simp only [beq_iff_eq]
      exact fun hk => h hk.symm
    simp [lookupC, hk]
  | cons p m ih =>
    by_cases hp : (p.1 == k2) = true
    · simp [lookupC, hp]
    · simp only [List.cons_append, lookupC, hp, if_false]
      exact ih

/-- Auxiliary characterization of the `get_container_power_metrics` fold:
with any accumulator it appends, per series in order, the record built
from the last sample of a non-empty `values` list and nothing for an
empty one. -/
theorem get_container_power_metrics_fold (result : List RangedSeries)
    (acc : List ContainerPowerData) :
    result.foldl
      (fun acc s =>
        if s.values.isEmpty then acc
        else acc ++ [rangedRecord s.labels ((s.values[s.values.length - 1]?).getD (0, 0))])
      acc =
    acc ++ result.filterMap (fun s => (s.values.getLast?).map (rangedRecord s.labels)) := by
  induction result generalizing acc with
  | nil => simp
  | cons s rest ih =>
    cases hv : s.values with
    | nil =>
      simp only [List.foldl_cons, hv, List.isEmpty_nil, if_pos, List.filterMap_cons,
        List.getLast?_nil, Option.map_none]
      exact ih acc
    | cons a as =>
      have hne : s.values ≠ [] := by simp [hv]
      have hsome : (s.values.getLast?).isSome = true := by
        rw [List.getLast?_isSome]
        exact hne
      obtain ⟨x, hx⟩ := Option.isSome_iff_exists.mp hsome
      have hidx : s.values[s.values.length - 1]? = some x := by
        rw [← List.getLast?_eq_getElem? s.values]
        exact hx
      simp only [List.foldl_cons, hv, List.isEmpty_cons, Bool.false_eq_true, if_false,
        List.filterMap_cons]
      rw [← hv, hidx, hx]
      simp only [Option.getD_some, Option.map_some]
      rw [ih (acc ++ [rangedRecord s.labels x])]
      simp

/-- C7: for every series returned by the ranged container-power query,
a non-empty sample sequence yields exactly one record carrying the last
sample's value and timestamp (`values[-1]`, a point-in-time read, not an
average or integral), and an empty sample sequence yields no record. -/
theorem c7_last_sample_in_window (result : List RangedSeries) :
    get_container_power_metrics result =
      result.filterMap (fun s => (s.values.getLast?).map (rangedRecord s.labels)) := by
  unfold get_container_power_metrics
  rw [get_container_power_metrics_fold result []]
  simp

/-- C6 counterexample: the token `"xm"` has the recognized suffix `m` but
a non-numeric prefix, so `int("x")` raises `ValueError` — parsing is not
total and does not fall back to the 5-minute default here. -/
theorem c6_counterexample : parse_time_range "xm" = Except.error "ValueError" := by decide

/-- C6 amended: a token whose last character is `m`/`h`/`d` with an
integer prefix yields that many minutes/hours/days (in seconds); a token
with no recognized suffix yields the 300-second default; but a token with
a recognized suffix and a non-integer prefix raises `ValueError` instead
of defaulting. -/
theorem c6_time_range_parsing :
    (∀ s n, pyEndsWith s 'm' = true → pyInt (pyDropLast s) = some n →
      parse_time_range s = Except.ok (60 * n)) ∧
    (∀ s n, pyEndsWith s 'm' = false → pyEndsWith s 'h' = true →
      pyInt (pyDropLast s) = some n → parse_time_range s = Except.ok (3600 * n)) ∧
    (∀ s n, pyEndsWith s 'm' = false → pyEndsWith s 'h' = false →
      pyEndsWith s 'd' = true → pyInt (pyDropLast s) = some n →
      parse_time_range s = Except.ok (86400 * n)) ∧
    (∀ s, pyEndsWith s 'm' = false → pyEndsWith s 'h' = false →
      pyEndsWith s 'd' = false → parse_time_range s = Except.ok 300) ∧
    (∀ s, pyEndsWith s 'm' = true → pyInt (pyDropLast s) = none →
      parse_time_range s = Except.error "ValueError") := by
  refine ⟨?_, ?_, ?_, ?_, ?_⟩
  · intro s n hm hn
    simp [parse_time_range, hm, hn]
  · intro s n hm hh hn
    simp [parse_time_range, hm, hh, hn]
  · intro s n hm hh hd hn
    simp [parse_time_range, hm, hh, hd, hn]
  · intro s hm hh hd
    simp [parse_time_range, hm, hh, hd]
  · intro s hm hn
    simp [parse_time_range, hm, hn]

/-- Witness for C6: the concrete policy rows of the spec, derived by
applying the amended theorem at `"30m"`, `"2h"`, `"3d"` and `"xyz"`. -/
theorem c6_time_range_parsing_witness :
    parse_time_range "30m" = Except.ok 1800 ∧ parse_time_range "2h" = Except.ok 7200 ∧
    parse_time_range "3d" = Except.ok 259200 ∧ parse_time_range "xyz" = Except.ok 300 := by
  refine ⟨?_, ?_, ?_, ?_⟩
  · have h := c6_time_range_parsing.1 "30m" 30 (by decide) (by decide)
    norm_num at h
    exact h
  · have h := c6_time_range_parsing.2.1 "2h" 2 (by decide) (by decide) (by decide)
    norm_num at h
    exact h
  · have h := c6_time_range_parsing.2.2.1 "3d" 3 (by decide) (by decide) (by decide) (by decide)
    norm_num at h
    exact h
  · exact c6_time_range_parsing.2.2.2.1 "xyz" (by decide) (by decide) (by decide)

/-- C8: with configuration rate r, cooling factor f (f ≥ 1) and carbon
rate c, a record of E joules (E ≥ 0) costs (E / 3600000) × r × f and
emits (E / 3600000) × c — the cooling factor multiplies only the
monetary amount, never the carbon estimate.  The calculator is modelled
from the spec, `power_metrics.py` being absent from `src/`. -/
theorem c8_cost_formula (E r f c : ℚ) (hE : 0 ≤ E) (hf : 1 ≤ f) :
    calculateCost ⟨r, f, c⟩ E =
      ⟨E / 3600000 * r * f, E / 3600000 * c⟩ := by
  have hmax : max E 0 = E := max_eq_left hE
  simp [calculateCost, hmax]

/-- Witness for C8: exactly one kWh at rate 0.15, cooling 1.0 and carbon
rate 0.5 gives cost 0.15 and carbon 0.5, by the theorem at those
inputs. -/
theorem c8_cost_formula_witness :
    (0 : ℚ) ≤ 3600000 ∧ (1 : ℚ) ≤ 1 ∧
    calculateCost ⟨3 / 20, 1, 1 / 2⟩ 3600000 = ⟨3 / 20, 1 / 2⟩ := by
  refine ⟨by norm_num, le_refl 1, ?_⟩
  have h := c8_cost_formula 3600000 (3 / 20) 1 (1 / 2) (by norm_num) (le_refl 1)
  norm_num at h
  exact h

/-- C9: the health check is total over every backend behaviour — raised
transport errors, backend errors and malformed responses included — and
its report's status is "healthy" exactly when the liveness probe
succeeded with HTTP 200 and the kepler data-presence query returned at
least one series, and "unhealthy" otherwise. -/
theorem c9_health_check_report (l : Except String Nat)
    (q : Except String (List InstantSeries)) :
    ((health_check l q).status = "healthy" ∨ (health_check l q).status = "unhealthy") ∧
    ((health_check l q).status = "healthy" ↔
      livenessSucceeds l = true ∧ dataPresent q = true) := by
  have hne : ("unhealthy" : String) ≠ "healthy" := by decide
  cases l with
  | error e => simp [health_check, livenessSucceeds, hne]
  | ok code =>
    cases q with
    | error e => simp [health_check, dataPresent, hne]
    | ok rs =>
      by_cases hp : (code == 200) = true
      · by_cases hk : 0 < rs.length
        · simp [health_check, livenessSucceeds, dataPresent, hp, hk]
        · simp [health_check, livenessSucceeds, dataPresent, hp, hk, hne]
      · simp [health_check, livenessSucceeds, dataPresent, hp, hne]

/-- Label set used by the C3 statements: one container-scope key. -/
def c3Labels : Labels :=
  [("container_name", "c1"), ("pod_name", "p1"), ("container_namespace", "ns1")]

/-- Second series with the same correlation key but a distinct incidental
label, as two series of one query result may carry. -/
def c3Labels2 : Labels :=
  [("container_name", "c1"), ("pod_name", "p1"), ("container_namespace", "ns1"),
   ("mode", "sys")]

/-- C3 counterexample: two merge steps of the same metric type for one
EntityKey — cpu 5 then cpu 7, as two series of one cpu query result that
share the key — leave cpu = 7: the second step overwrites a component
field already set by an earlier step, so the merge is not monotonic as
claimed over every sequence of steps. -/
theorem c3_counterexample :
    (lookupC (mergeSeries .cpu [] ⟨c3Labels, some (1, 5)⟩) (containerKey c3Labels)).map
        (getComponent .cpu) = some (some 5) ∧
    (lookupC
        (mergeSeries .cpu (mergeSeries .cpu [] ⟨c3Labels, some (1, 5)⟩)
          ⟨c3Labels2, some (2, 7)⟩)
        (containerKey c3Labels)).map (getComponent .cpu) = some (some 7) := by
  constructor
  · decide
  · decide

/-- C3 amended: a merge step sets only its own metric type's component
field — for any record already in the map, every component field of a
different metric type is unchanged by the step — and a later step of the
same metric type for the same key overwrites that one field; merging
cpu 5 then total 10 for one EntityKey still yields a record with cpu = 5
and total = 10. -/
theorem c3_monotonic_across_metric_types :
    (∀ (mt mt2 : CMetric) (m : CMap) (s : InstantSeries) (k : ContainerKey)
        (r : ContainerPowerData), lookupC m k = some r → mt2 ≠ mt →
      (lookupC (mergeSeries mt m s) k).map (getComponent mt2) =
        some (getComponent mt2 r)) ∧
    (lookupC
        (mergeSeries .total (mergeSeries .cpu [] ⟨c3Labels, some (1, 5)⟩)
          ⟨c3Labels, some (2, 10)⟩)
        (containerKey c3Labels)).map
      (fun r => (getComponent .cpu r, getComponent .total r)) =
      some (some 5, some 10) := by
  constructor
  · intro mt mt2 m s k r h hne
    cases hv : s.value with
    | none => simp [mergeSeries, hv, h]
    | some tv =>
      obtain ⟨ts, v⟩ := tv
      by_cases hk : k = containerKey s.labels
      · subst hk
        simp only [mergeSeries, hv, h]
        rw [lookupC_updateC_self m (containerKey s.labels) (setComponent mt v r), h]
        simp [getComponent_setComponent_other mt mt2 v r hne]
      · cases hl : lookupC m (containerKey s.labels) with
        | some r0 =>
          simp only [mergeSeries, hv, hl]
          rw [lookupC_updateC_other m (containerKey s.labels) k
            (setComponent mt v r0) hk, h]
          rfl
        | none =>
          simp only [mergeSeries, hv, hl]
          rw [lookupC_append_single_other m (containerKey s.labels) k
            (setComponent mt v (newShell (containerKey s.labels) s.labels ts)) hk, h]
          rfl
  · decide

/-- Map holding the single cpu = 5 record used as the C3 witness input. -/
def c3WitnessMap : CMap :=
  mergeSeries .cpu [] ⟨c3Labels, some (1, 5)⟩

/-- Record stored in `c3WitnessMap` under the C3 key. -/
def c3WitnessRecord : ContainerPowerData :=
  setComponent .cpu 5 (newShell (containerKey c3Labels) c3Labels 1)

/-- Witness for C3 amended: applying the preservation statement to the
concrete map holding cpu = 5, merged with a total = 10 series for the
same key, leaves the cpu component untouched. -/
theorem c3_monotonic_across_metric_types_witness :
    lookupC c3WitnessMap (containerKey c3Labels) = some c3WitnessRecord ∧
    CMetric.cpu ≠ CMetric.total ∧
    (lookupC (mergeSeries .total c3WitnessMap ⟨c3Labels, some (2, 10)⟩)
        (containerKey c3Labels)).map (getComponent .cpu) =
      some (getComponent .cpu c3WitnessRecord) := by
  refine ⟨by decide, by decide, ?_⟩
  exact c3_monotonic_across_metric_types.1 .total .cpu c3WitnessMap
    ⟨c3Labels, some (2, 10)⟩ (containerKey c3Labels) c3WitnessRecord (by decide) (by decide)

/-- Anchor fields of a node record: everything the platform query alone
determines (name, platform joules, timestamp, labels). -/
def nodeAnchorView (n : NodePowerData) : String × ℚ × ℚ × Labels :=
  (n.node_name, n.platform_power_joules, n.timestamp, n.labels)

theorem nodeAnchorView_setNodeComponent (c : NMetric) (v : ℚ) (n : NodePowerData) :
    nodeAnchorView (setNodeComponent c v n) = nodeAnchorView n := by
  cases c <;> rfl

theorem map_view_updateFirstNamed (f : NodePowerData → NodePowerData)
    (hf : ∀ n, nodeAnchorView (f n) = nodeAnchorView n) (name : String)
    (nodes : List NodePowerData) :
    (updateFirstNamed f name nodes).map nodeAnchorView = nodes.map nodeAnchorView := by
  induction nodes with
  | nil => rfl
  | cons n rest ih =>
    by_cases hn : (n.node_name == name) = true
    · simp [updateFirstNamed, hn, hf n]
    · simp [updateFirstNamed, hn, ih]

theorem map_view_updateLastNamed (f : NodePowerData → NodePowerData)
    (hf : ∀ n, nodeAnchorView (f n) = nodeAnchorView n) (name : String)
    (nodes : List NodePowerData) :
    (updateLastNamed f name nodes).map nodeAnchorView = nodes.map nodeAnchorView := by
  unfold updateLastNamed
  rw [List.map_reverse, map_view_updateFirstNamed f hf name nodes.reverse,
    List.map_reverse, List.reverse_reverse]

theorem map_view_enrichComponent (c : NMetric) (nodes : List NodePowerData)
    (ss : List InstantSeries) :
    (enrichComponent c nodes ss).map nodeAnchorView = nodes.map nodeAnchorView := by
  induction ss generalizing nodes with
  | nil => rfl
  | cons s rest ih =>
    cases hv : s.value with
    | none => simp only [enrichComponent, List.foldl_cons, hv]; exact ih nodes
    | some tv =>
      obtain ⟨t, v⟩ := tv
      simp only [enrichComponent, List.foldl_cons, hv]
      have h2 := ih (updateLastNamed (setNodeComponent c v)
        (getLabel s.labels "instance" "unknown") nodes)
      simp only [enrichComponent] at h2
      rw [h2, map_view_updateLastNamed (setNodeComponent c v)
        (nodeAnchorView_setNodeComponent c v) (getLabel s.labels "instance" "unknown") nodes]

theorem map_view_enrichFold (cs : List NMetric)
    (backendN : NMetric → Except String (List InstantSeries)) (nodes : List NodePowerData) :
    (cs.foldl
        (fun acc c =>
          match backendN c with
          | .ok ss => enrichComponent c acc ss
          | .error _ => acc)
        nodes).map nodeAnchorView = nodes.map nodeAnchorView := by
  induction cs generalizing nodes with
  | nil => rfl
  | cons c rest ih =>
    cases hb : backendN c with
    | ok ss =>
      simp only [List.foldl_cons, hb]
      rw [ih, map_view_enrichComponent]
    | error e =>
      simp only [List.foldl_cons, hb]
      exact ih nodes

theorem map_view_enrich (backendN : NMetric → Except String (List InstantSeries))
    (nodes : List NodePowerData) :
    (enrich_node_metrics backendN nodes).map nodeAnchorView = nodes.map nodeAnchorView := by
  unfold enrich_node_metrics
  exact map_view_enrichFold nodeComponents backendN nodes

theorem enrichFold_all_failing (cs : List NMetric) (ef : NMetric → String)
    (nodes : List NodePowerData) :
    cs.foldl
        (fun acc c =>
          match (fun c => Except.error (ε := String) (ef c)) c with
          | .ok ss => enrichComponent c acc ss
          | .error _ => acc)
        nodes = nodes := by
  induction cs generalizing nodes with
  | nil => rfl
  | cons c rest ih => exact ih nodes

/-- C5: in the node scope, a failure of the pass-anchoring platform-total
query propagates to the caller as the pass failure, while per-component
query failures never raise: the pass still succeeds, the anchor fields
(name, platform joules, timestamp, labels) of every record are exactly
those the platform query built, and with every component query failing
the records are returned entirely unenriched.  The source re-raises the
underlying exception object; the spec's `CollectionError` is embedded as
that propagated error value. -/
theorem c5_node_failure_policy (backendN : NMetric → Except String (List InstantSeries))
    (e : String) (ss : List InstantSeries) (ef : NMetric → String) :
    get_node_power_metrics (.error e) backendN = .error e ∧
    (get_node_power_metrics (.ok ss) backendN).isOk = true ∧
    ((get_node_power_metrics (.ok ss) backendN).toOption.getD []).map nodeAnchorView =
      (buildNodes ss).map nodeAnchorView ∧
    get_node_power_metrics (.ok ss) (fun c => .error (ef c)) = .ok (buildNodes ss) := by
  refine ⟨rfl, rfl, ?_, ?_⟩
  · simp only [get_node_power_metrics, Except.toOption, Option.getD_some]
    exact map_view_enrich backendN (buildNodes ss)
  · simp only [get_node_power_metrics, Except.ok.injEq]
    unfold enrich_node_metrics
    exact enrichFold_all_failing nodeComponents ef (buildNodes ss)

/-- Events contributed by one series: its correlation key with the sample
pair, when the `value` guard passes. -/
def eventsOf (s : InstantSeries) : List (ContainerKey × ℚ × ℚ) :=
  match s.value with
  | some tv => [(containerKey s.labels, tv)]
  | none => []

/-- Events of a whole query result, in processing order. -/
def sampleEvents (ss : List InstantSeries) : List (ContainerKey × ℚ × ℚ) :=
  ss.filterMap (fun s => s.value.map (fun tv => (containerKey s.labels, tv)))

/-- Timestamp of the first event carrying the key, the characterization
the amended C4 proves the pass realizes. -/
def firstSeenTs : List (ContainerKey × ℚ × ℚ) → ContainerKey → Option ℚ
  | [], _ => none
  | e :: evs, k => if e.1 = k then some e.2.1 else firstSeenTs evs k

/-- Value of the last event carrying the key, the characterization of the
authoritative direct total of C2. -/
def lastDirectValue : List (ContainerKey × ℚ × ℚ) → ContainerKey → Option ℚ
  | [], _ => none
  | e :: evs, k =>
    match lastDirectValue evs k with
    | some v => some v
    | none => if e.1 = k then some e.2.2 else none

theorem sampleEvents_nil : sampleEvents [] = [] := rfl

theorem sampleEvents_cons (s : InstantSeries) (ss : List InstantSeries) :
    sampleEvents (s :: ss) = eventsOf s ++ sampleEvents ss := by
  cases hv : s.value <;> simp [sampleEvents, eventsOf, hv]

theorem firstSeenTs_append (a b : List (ContainerKey × ℚ × ℚ)) (k : ContainerKey) :
    firstSeenTs (a ++ b) k =
      match firstSeenTs a k with
      | some t => some t
      | none => firstSeenTs b k := by
  induction a with
  | nil => rfl
  | cons e evs ih =>
    by_cases he : e.1 = k
    · simp [firstSeenTs, he]
    · simp [firstSeenTs, he, ih]

theorem lastDirectValue_append (a b : List (ContainerKey × ℚ × ℚ)) (k : ContainerKey) :
    lastDirectValue (a ++ b) k =
      match lastDirectValue b k with
      | some v => some v
      | none => lastDirectValue a k := by
  induction a with
  | nil => cases hb : lastDirectValue b k <;> simp [lastDirectValue, hb]
  | cons e evs ih =>
    simp only [List.cons_append, lastDirectValue, List.append_eq]
    rw [ih]
    cases hb : lastDirectValue b k <;> cases ha : lastDirectValue evs k <;> simp

/-- One merge step keeps the pass-wide first-seen-timestamp invariant:
an existing record's timestamp is never touched, a fresh shell records
the creating sample's timestamp. -/
theorem firstSeenTs_mergeSeries (mt : CMetric) (m : CMap) (s : InstantSeries)
    (evs : List (ContainerKey × ℚ × ℚ))
    (h : ∀ k, (lookupC m k).map ContainerPowerData.timestamp = firstSeenTs evs k) :
    ∀ k, (lookupC (mergeSeries mt m s) k).map ContainerPowerData.timestamp =
      firstSeenTs (evs ++ eventsOf s) k := by
  intro k
  cases hv : s.value with
  | none => simp [mergeSeries, hv, eventsOf, h k]
  | some tv =>
    obtain ⟨ts, v⟩ := tv
    rw [firstSeenTs_append]
    by_cases hk : k = containerKey s.labels
    · subst hk
      cases hl : lookupC m (containerKey s.labels) with
      | some r =>
        have hts : firstSeenTs evs (containerKey s.labels) = some r.timestamp := by
          have hx := h (containerKey s.labels)
          rw [hl] at hx
          exact hx.symm
        simp only [mergeSeries, hv, hl]
        rw [lookupC_updateC_self m (containerKey s.labels) (setComponent mt v r), hl]
        simp [timestamp_setComponent, hts]
      | none =>
        have hts : firstSeenTs evs (containerKey s.labels) = none := by
          have hx := h (containerKey s.labels)
          rw [hl] at hx
          exact hx.symm
        simp only [mergeSeries, hv, hl]
        rw [lookupC_append_single_self m (containerKey s.labels) _ hl]
        simp [timestamp_setComponent, hts, eventsOf, hv, firstSeenTs, newShell]
    · have hk2 : (containerKey s.labels, (ts, v)).1 ≠ k := fun hh => hk hh.symm
      have hrhs : firstSeenTs (eventsOf s) k = none := by
        simp [eventsOf, hv, firstSeenTs, hk2]
      cases hl : lookupC m (containerKey s.labels) with
      | some r =>
        simp only [mergeSeries, hv, hl]
        rw [lookupC_updateC_other m (containerKey s.labels) k (setComponent mt v r) hk]
        rw [hrhs, h k]
        cases hf : firstSeenTs evs k <;> simp
      | none =>
        simp only [mergeSeries, hv, hl]
        rw [lookupC_append_single_other m (containerKey s.labels) k _ hk]
        rw [hrhs, h k]
        cases hf : firstSeenTs evs k <;> simp

/-- The first-seen-timestamp invariant is preserved across a whole
query-result phase. -/
theorem firstSeenTs_mergePhase (mt : CMetric) (ss : List InstantSeries) :
    ∀ (m : CMap) (evs : List (ContainerKey × ℚ × ℚ)),
      (∀ k, (lookupC m k).map ContainerPowerData.timestamp = firstSeenTs evs k) →
      ∀ k, (lookupC (mergePhase mt m ss) k).map ContainerPowerData.timestamp =
        firstSeenTs (evs ++ sampleEvents ss) k := by
  induction ss with
  | nil =>
    intro m evs h k
    simpa [mergePhase, sampleEvents] using h k
  | cons s rest ih =>
    intro m evs h k
    have hstep := firstSeenTs_mergeSeries mt m s evs h
    have hrec := ih (mergeSeries mt m s) (evs ++ eventsOf s) hstep k
    rw [sampleEvents_cons, ← List.append_assoc]
    exact hrec

/-- All events of one full container pass, in processing order. -/
def allSampleEvents (s1 s2 s3 s4 s5 : List InstantSeries) :
    List (ContainerKey × ℚ × ℚ) :=
  sampleEvents s1 ++ sampleEvents s2 ++ sampleEvents s3 ++ sampleEvents s4 ++ sampleEvents s5

/-- Per-key timestamp of the full pass: the first sample seen for the
key, across the five phases. -/
theorem passMap_timestamp (s1 s2 s3 s4 s5 : List InstantSeries) (k : ContainerKey) :
    (lookupC (passMap s1 s2 s3 s4 s5) k).map ContainerPowerData.timestamp =
      firstSeenTs (allSampleEvents s1 s2 s3 s4 s5) k := by
  have h0 : ∀ k, (lookupC ([] : CMap) k).map ContainerPowerData.timestamp =
      firstSeenTs [] k := by
    intro k
    rfl
  have h1 := firstSeenTs_mergePhase .total s1 [] [] h0
  have h2 := firstSeenTs_mergePhase .cpu s2 _ _ h1
  have h3 := firstSeenTs_mergePhase .gpu s3 _ _ h2
  have h4 := firstSeenTs_mergePhase .memory s4 _ _ h3
  have h5 := firstSeenTs_mergePhase .other s5 _ _ h4
  have := h5 k
  simpa [passMap, allSampleEvents, List.append_assoc] using this

/-- A merge step can only grow the key set: an existing record stays
present (possibly updated). -/
theorem lookupC_mergeSeries_some (mt : CMetric) (m : CMap) (s : InstantSeries)
    (k : ContainerKey) (r : ContainerPowerData) (h : lookupC m k = some r) :
    ∃ r2, lookupC (mergeSeries mt m s) k = some r2 := by
  cases hv : s.value with
  | none => exact ⟨r, by simp [mergeSeries, hv, h]⟩
  | some tv =>
    obtain ⟨ts, v⟩ := tv
    by_cases hk : k = containerKey s.labels
    · subst hk
      refine ⟨setComponent mt v r, ?_⟩
      simp only [mergeSeries, hv, h]
      rw [lookupC_updateC_self m (containerKey s.labels) (setComponent mt v r), h]
      rfl
    · cases hl : lookupC m (containerKey s.labels) with
      | some r0 =>
        refine ⟨r, ?_⟩
        simp only [mergeSeries, hv, hl]
        rw [lookupC_updateC_other m (containerKey s.labels) k (setComponent mt v r0) hk]
        exact h
      | none =>
        refine ⟨r, ?_⟩
        simp only [mergeSeries, hv, hl]
        rw [lookupC_append_single_other m (containerKey s.labels) k _ hk]
        exact h

/-- Phase-level key growth. -/
theorem lookupC_mergePhase_some (mt : CMetric) (ss : List InstantSeries) :
    ∀ (m : CMap) (k : ContainerKey) (r : ContainerPowerData), lookupC m k = some r →
      ∃ r2, lookupC (mergePhase mt m ss) k = some r2 := by
  induction ss with
  | nil => intro m k r h; exact ⟨r, h⟩
  | cons s rest ih =>
    intro m k r h
    obtain ⟨r1, h1⟩ := lookupC_mergeSeries_some mt m s k r h
    exact ih (mergeSeries mt m s) k r1 h1

/-- During the total phase the map satisfies: a record exists for a key
exactly when a direct total sample was seen, and its total component is
the last direct total value seen. -/
theorem totalInv_mergeSeries (m : CMap) (s : InstantSeries)
    (evs : List (ContainerKey × ℚ × ℚ))
    (h : ∀ k, (lookupC m k).map (getComponent .total) = (lastDirectValue evs k).map some) :
    ∀ k, (lookupC (mergeSeries .total m s) k).map (getComponent .total) =
      (lastDirectValue (evs ++ eventsOf s) k).map some := by
  intro k
  cases hv : s.value with
  | none => simp [mergeSeries, hv, eventsOf, h k]
  | some tv =>
    obtain ⟨ts, v⟩ := tv
    rw [lastDirectValue_append]
    by_cases hk : k = containerKey s.labels
    · subst hk
      have hsingle : lastDirectValue (eventsOf s) (containerKey s.labels) = some v := by
        simp [eventsOf, hv, lastDirectValue]
      rw [hsingle]
      cases hl : lookupC m (containerKey s.labels) with
      | some r =>
        simp only [mergeSeries, hv, hl]
        rw [lookupC_updateC_self m (containerKey s.labels) (setComponent .total v r), hl]
        simp [getComponent_setComponent_same]
      | none =>
        simp only [mergeSeries, hv, hl]
        rw [lookupC_append_single_self m (containerKey s.labels) _ hl]
        simp [getComponent_setComponent_same]
    · have hsingle : lastDirectValue (eventsOf s) k = none := by
        have hne : ¬((containerKey s.labels, (ts, v)).1 = k) := fun hh => hk hh.symm
        simp [eventsOf, hv, lastDirectValue, hne]
      rw [hsingle]
      cases hl : lookupC m (containerKey s.labels) with
      | some r =>
        simp only [mergeSeries, hv, hl]
        rw [lookupC_updateC_other m (containerKey s.labels) k (setComponent .total v r) hk]
        exact h k
      | none =>
        simp only [mergeSeries, hv, hl]
        rw [lookupC_append_single_other m (containerKey s.labels) k _ hk]
        exact h k

/-- The total-phase invariant, folded over the whole total query
result. -/
theorem totalInv_mergePhase (ss : List InstantSeries) :
    ∀ (m : CMap) (evs : List (ContainerKey × ℚ × ℚ)),
      (∀ k, (lookupC m k).map (getComponent .total) = (lastDirectValue evs k).map some) →
      ∀ k, (lookupC (mergePhase .total m ss) k).map (getComponent .total) =
        (lastDirectValue (evs ++ sampleEvents ss) k).map some := by
  induction ss with
  | nil =>
    intro m evs h k
    simpa [mergePhase, sampleEvents] using h k
  | cons s rest ih =>
    intro m evs h k
    have hstep := totalInv_mergeSeries m s evs h
    have hrec := ih (mergeSeries .total m s) (evs ++ eventsOf s) hstep k
    rw [sampleEvents_cons, ← List.append_assoc]
    exact hrec

/-- A merge step of a non-total metric type never changes any record's
total component: a surviving record keeps its old total, a fresh record
has none. -/
theorem totalKeep_mergeSeries (mt : CMetric) (hmt : mt ≠ .total) (m : CMap)
    (s : InstantSeries) (k : ContainerKey) (r2 : ContainerPowerData)
    (h : lookupC (mergeSeries mt m s) k = some r2) :
    (∃ r, lookupC m k = some r ∧ getComponent .total r2 = getComponent .total r) ∨
    (lookupC m k = none ∧ getComponent .total r2 = none) := by
  have hne : CMetric.total ≠ mt := fun hh => hmt hh.symm
  cases hv : s.value with
  | none =>
    rw [mergeSeries, hv] at h
    exact Or.inl ⟨r2, h, rfl⟩
  | some tv =>
    obtain ⟨ts, v⟩ := tv
    by_cases hk : k = containerKey s.labels
    · subst hk
      cases hl : lookupC m (containerKey s.labels) with
      | some r =>
        simp only [mergeSeries, hv, hl] at h
        rw [lookupC_updateC_self m (containerKey s.labels) (setComponent mt v r), hl] at h
        have hr2 : r2 = setComponent mt v r := by
          simpa using h.symm
        subst hr2
        exact Or.inl ⟨r, rfl, getComponent_setComponent_other mt .total v r hne⟩
      | none =>
        simp only [mergeSeries, hv, hl] at h
        rw [lookupC_append_single_self m (containerKey s.labels) _ hl] at h
        have hr2 : r2 = setComponent mt v (newShell (containerKey s.labels) s.labels ts) := by
          simpa using h.symm
        subst hr2
        refine Or.inr ⟨rfl, ?_⟩
        rw [getComponent_setComponent_other mt .total v _ hne]
        exact getComponent_newShell .total _ _ _
    · cases hl : lookupC m (containerKey s.labels) with
      | some r =>
        simp only [mergeSeries, hv, hl] at h
        rw [lookupC_updateC_other m (containerKey s.labels) k (setComponent mt v r) hk] at h
        exact Or.inl ⟨r2, h, rfl⟩
      | none =>
        simp only [mergeSeries, hv, hl] at h
        rw [lookupC_append_single_other m (containerKey s.labels) k _ hk] at h
        exact Or.inl ⟨r2, h, rfl⟩

/-- Phase-level version of `totalKeep_mergeSeries`. -/
theorem totalKeep_mergePhase (mt : CMetric) (hmt : mt ≠ .total) (ss : List InstantSeries) :
    ∀ (m : CMap) (k : ContainerKey) (r2 : ContainerPowerData),
      lookupC (mergePhase mt m ss) k = some r2 →
      (∃ r, lookupC m k = some r ∧ getComponent .total r2 = getComponent .total r) ∨
      (lookupC m k = none ∧ getComponent .total r2 = none) := by
  induction ss with
  | nil => intro m k r2 h; exact Or.inl ⟨r2, h, rfl⟩
  | cons s rest ih =>
    intro m k r2 h
    have h2 := ih (mergeSeries mt m s) k r2 h
    rcases h2 with ⟨r1, hr1, heq⟩ | ⟨hnone, heq⟩
    · rcases totalKeep_mergeSeries mt hmt m s k r1 hr1 with ⟨r0, hr0, heq0⟩ | ⟨hn, heq0⟩
      · exact Or.inl ⟨r0, hr0, heq.trans heq0⟩
      · exact Or.inr ⟨hn, heq.trans heq0⟩
    · have hmk : lookupC m k = none := by
        cases hm : lookupC m k with
        | none => rfl
        | some r =>
          obtain ⟨rx, hx⟩ := lookupC_mergeSeries_some mt m s k r hm
          rw [hx] at hnone
          cases hnone
      exact Or.inr ⟨hmk, heq⟩

/-- When all five queries succeed, the pass output is the phase-folded
map's values, in insertion order, truncated to `limit`. -/
theorem get_all_container_metrics_ok (backend : CMetric → Except String (List InstantSeries))
    (limit : Nat) (s1 s2 s3 s4 s5 : List InstantSeries)
    (h1 : backend .total = .ok s1) (h2 : backend .cpu = .ok s2)
    (h3 : backend .gpu = .ok s3) (h4 : backend .memory = .ok s4)
    (h5 : backend .other = .ok s5) :
    get_all_container_metrics backend limit =
      .ok (((passMap s1 s2 s3 s4 s5).map Prod.snd).take limit) := by
  unfold get_all_container_metrics
  simp [containerQueries, List.foldlM, h1, h2, h3, h4, h5, Except.map, Bind.bind,
    Except.bind, passMap, Pure.pure, Except.pure]

/-- The total component of any record of the full pass is exactly the
last value the direct total query delivered for its key — `none` (read
as the 0.0 default) when the total query had no sample for the key; it is
never assembled from the other components. -/
theorem passMap_total_value (s1 s2 s3 s4 s5 : List InstantSeries) (k : ContainerKey)
    (r : ContainerPowerData) (h : lookupC (passMap s1 s2 s3 s4 s5) k = some r) :
    getComponent .total r = lastDirectValue (sampleEvents s1) k := by
  have h0 : ∀ k2, (lookupC ([] : CMap) k2).map (getComponent .total) =
      (lastDirectValue [] k2).map some := fun _ => rfl
  have h1 := totalInv_mergePhase s1 [] [] h0
  have hsome1 : ∀ r1, lookupC (mergePhase .total [] s1) k = some r1 →
      getComponent .total r1 = lastDirectValue (sampleEvents s1) k := by
    intro r1 hr
    have hx := h1 k
    rw [hr] at hx
    simp only [List.nil_append] at hx
    cases hld : lastDirectValue (sampleEvents s1) k with
    | none =>
      rw [hld] at hx
      simp at hx
    | some w =>
      rw [hld] at hx
      have hval : getComponent .total r1 = some w := by
        simp only [Option.map_some'] at hx
        exact Option.some.inj hx
      rw [hval]
  have hnone1 : lookupC (mergePhase .total [] s1) k = none →
      lastDirectValue (sampleEvents s1) k = none := by
    intro hr
    have hx := h1 k
    rw [hr] at hx
    simp only [List.nil_append] at hx
    cases hld : lastDirectValue (sampleEvents s1) k with
    | none => rfl
    | some w =>
      rw [hld] at hx
      simp at hx
  simp only [passMap] at h
  have hg2 : lookupC (mergePhase .cpu (mergePhase .total [] s1) s2) k = none →
      lookupC (mergePhase .total [] s1) k = none := by
    intro hn
    cases hx : lookupC (mergePhase .total [] s1) k with
    | none => rfl
    | some r1 =>
      obtain ⟨rx, hrx⟩ := lookupC_mergePhase_some .cpu s2 _ k r1 hx
      rw [hrx] at hn
      cases hn
  have hg3 : lookupC (mergePhase .gpu (mergePhase .cpu (mergePhase .total [] s1) s2) s3) k =
      none → lookupC (mergePhase .cpu (mergePhase .total [] s1) s2) k = none := by
    intro hn
    cases hx : lookupC (mergePhase .cpu (mergePhase .total [] s1) s2) k with
    | none => rfl
    | some r1 =>
      obtain ⟨rx, hrx⟩ := lookupC_mergePhase_some .gpu s3 _ k r1 hx
      rw [hrx] at hn
      cases hn
  have hg4 : lookupC (mergePhase .memory
        (mergePhase .gpu (mergePhase .cpu (mergePhase .total [] s1) s2) s3) s4) k = none →
      lookupC (mergePhase .gpu (mergePhase .cpu (mergePhase .total [] s1) s2) s3) k =
        none := by
    intro hn
    cases hx : lookupC (mergePhase .gpu (mergePhase .cpu (mergePhase .total [] s1) s2) s3) k with
    | none => rfl
    | some r1 =>
      obtain ⟨rx, hrx⟩ := lookupC_mergePhase_some .memory s4 _ k r1 hx
      rw [hrx] at hn
      cases hn
  rcases totalKeep_mergePhase .other (by decide) s5 _ k r h with ⟨r4, hr4, he4⟩ | ⟨hn4, he4⟩
  · rcases totalKeep_mergePhase .memory (by decide) s4 _ k r4 hr4 with
      ⟨r3, hr3, he3⟩ | ⟨hn3, he3⟩
    · rcases totalKeep_mergePhase .gpu (by decide) s3 _ k r3 hr3 with
        ⟨r2, hr2, he2⟩ | ⟨hn2, he2⟩
      · rcases totalKeep_mergePhase .cpu (by decide) s2 _ k r2 hr2 with
          ⟨r1, hr1, he1⟩ | ⟨hn1, he1⟩
        · exact he4.trans (he3.trans (he2.trans (he1.trans (hsome1 r1 hr1))))
        · exact he4.trans (he3.trans (he2.trans (he1.trans (hnone1 hn1).symm)))
      · exact he4.trans (he3.trans (he2.trans (hnone1 (hg2 hn2)).symm))
    · exact he4.trans (he3.trans (hnone1 (hg2 (hg3 hn3))).symm)
  · exact he4.trans (hnone1 (hg2 (hg3 (hg4 hn4)))).symm

/-- Label set shared by the C1 statements. -/
def c1Labels : Labels :=
  [("container_name", "app"), ("pod_name", "pod1"), ("container_namespace", "default")]

/-- Backend in which exactly one of the five container queries (`other`)
fails while the four others succeed with data. -/
def c1Backend : CMetric → Except String (List InstantSeries)
  | .total => .ok [⟨c1Labels, some (100, 50)⟩]
  | .cpu => .ok [⟨c1Labels, some (100, 20)⟩]
  | .gpu => .ok [⟨c1Labels, some (100, 5)⟩]
  | .memory => .ok [⟨c1Labels, some (100, 15)⟩]
  | .other => .error "boom"

/-- C1 counterexample: with exactly one of the five metric-type queries
failing and the other four succeeding with data, the container pass does
not return records built from the four successes — it propagates the
failure (the single outer `except` logs and re-raises; there is no
per-query handler in `get_all_container_metrics`). -/
theorem c1_counterexample :
    c1Backend .total = Except.ok [⟨c1Labels, some (100, 50)⟩] ∧
    (c1Backend .cpu).isOk = true ∧
    (c1Backend .gpu).isOk = true ∧
    (c1Backend .memory).isOk = true ∧
    c1Backend .other = Except.error "boom" ∧
    get_all_container_metrics c1Backend 100 = Except.error "boom" := by
  refine ⟨rfl, rfl, rfl, rfl, rfl, ?_⟩
  decide

/-- C1 amended: in the container-scope pass a single failing metric-type
query aborts the whole pass — when exactly one of the five configured
queries fails and the other four succeed, `get_all_container_metrics`
raises that error to its caller instead of returning partial records
(per-metric-type tolerance exists only in the node-scope enrichment). -/
theorem c1_single_failure_aborts_pass (backend : CMetric → Except String (List InstantSeries))
    (limit : Nat) (mt : CMetric) (e : String) (hfail : backend mt = .error e)
    (hok : ∀ mt2, mt2 ≠ mt → ∃ ss, backend mt2 = .ok ss) :
    get_all_container_metrics backend limit = .error e := by
  unfold get_all_container_metrics
  cases mt with
  | total =>
    simp [containerQueries, List.foldlM, hfail, Except.map, Bind.bind, Except.bind]
  | cpu =>
    obtain ⟨s1, h1⟩ := hok .total (by decide)
    simp [containerQueries, List.foldlM, hfail, h1, Except.map, Bind.bind, Except.bind]
  | gpu =>
    obtain ⟨s1, h1⟩ := hok .total (by decide)
    obtain ⟨s2, h2⟩ := hok .cpu (by decide)
    simp [containerQueries, List.foldlM, hfail, h1, h2, Except.map, Bind.bind, Except.bind]
  | memory =>
    obtain ⟨s1, h1⟩ := hok .total (by decide)
    obtain ⟨s2, h2⟩ := hok .cpu (by decide)
    obtain ⟨s3, h3⟩ := hok .gpu (by decide)
    simp [containerQueries, List.foldlM, hfail, h1, h2, h3, Except.map, Bind.bind,
      Except.bind]
  | other =>
    obtain ⟨s1, h1⟩ := hok .total (by decide)
    obtain ⟨s2, h2⟩ := hok .cpu (by decide)
    obtain ⟨s3, h3⟩ := hok .gpu (by decide)
    obtain ⟨s4, h4⟩ := hok .memory (by decide)
    simp [containerQueries, List.foldlM, hfail, h1, h2, h3, h4, Except.map, Bind.bind,
      Except.bind]

/-- Backend whose cpu query alone fails, used as the C1 witness input. -/
def c1wBackend : CMetric → Except String (List InstantSeries)
  | .cpu => .error "down"
  | _ => .ok []

/-- Witness for C1 amended, applying the theorem to the backend whose cpu
query alone fails. -/
theorem c1_single_failure_aborts_pass_witness :
    get_all_container_metrics c1wBackend 100 = Except.error "down" := by
  refine c1_single_failure_aborts_pass c1wBackend 100 .cpu "down" rfl ?_
  intro mt2 h2
  cases mt2 with
  | total => exact ⟨[], rfl⟩
  | cpu => exact absurd rfl h2
  | gpu => exact ⟨[], rfl⟩
  | memory => exact ⟨[], rfl⟩
  | other => exact ⟨[], rfl⟩

/-- Label set shared by the C2 counterexample. -/
def c2cLabels : Labels :=
  [("container_name", "c2c"), ("pod_name", "p"), ("container_namespace", "ns")]

/-- Backend for the C2 counterexample: no direct total series, cpu = 4
and gpu = 3 for one entity. -/
def c2cBackend : CMetric → Except String (List InstantSeries)
  | .total => .ok []
  | .cpu => .ok [⟨c2cLabels, some (1, 4)⟩]
  | .gpu => .ok [⟨c2cLabels, some (2, 3)⟩]
  | .memory => .ok []
  | .other => .ok []

/-- C2 counterexample: for an entity with no direct total sample but
cpu = 4 and gpu = 3, the claimed fallback — total computed as the sum of
recognized components (7) — does not happen: the total component is never
assigned (default 0.0) and `power_joules` stays 0. -/
theorem c2_counterexample :
    ((get_all_container_metrics c2cBackend 100).toOption.getD []).map
        (fun r => (r.total_power_joules, r.power_joules, r.cpu_power_joules,
          r.gpu_power_joules)) =
      [(none, 0, some 4, some 3)] ∧
    ¬((0 : ℚ) = 4 + 3) := by
  constructor
  · decide
  · norm_num

/-- C2 amended: when the direct total query returns a value for an
entity, the record's total component is exactly the (last) direct value;
when it returns none for the entity, the total component stays unset
(read as the 0.0 default) — the pass never computes a sum of the other
components as a fallback total. -/
theorem c2_direct_total_never_summed (backend : CMetric → Except String (List InstantSeries))
    (limit : Nat) (s1 s2 s3 s4 s5 : List InstantSeries)
    (h1 : backend .total = .ok s1) (h2 : backend .cpu = .ok s2)
    (h3 : backend .gpu = .ok s3) (h4 : backend .memory = .ok s4)
    (h5 : backend .other = .ok s5) :
    get_all_container_metrics backend limit =
      .ok (((passMap s1 s2 s3 s4 s5).map Prod.snd).take limit) ∧
    ∀ k r, lookupC (passMap s1 s2 s3 s4 s5) k = some r →
      getComponent .total r = lastDirectValue (sampleEvents s1) k := by
  refine ⟨get_all_container_metrics_ok backend limit s1 s2 s3 s4 s5 h1 h2 h3 h4 h5, ?_⟩
  intro k r hr
  exact passMap_total_value s1 s2 s3 s4 s5 k r hr

/-- Label set shared by the C2 witness. -/
def c2wLabels : Labels :=
  [("container_name", "c2w"), ("pod_name", "p"), ("container_namespace", "ns")]

/-- C2 witness queries: direct total 10 plus components cpu 4 and gpu 3
for the same entity. -/
def c2wTotal : List InstantSeries := [⟨c2wLabels, some (1, 10)⟩]

def c2wCpu : List InstantSeries := [⟨c2wLabels, some (2, 4)⟩]

def c2wGpu : List InstantSeries := [⟨c2wLabels, some (3, 3)⟩]

def c2wBackend : CMetric → Except String (List InstantSeries)
  | .total => .ok c2wTotal
  | .cpu => .ok c2wCpu
  | .gpu => .ok c2wGpu
  | .memory => .ok []
  | .other => .ok []

/-- The record the C2 witness pass builds. -/
def c2wRecord : ContainerPowerData :=
  setComponent .gpu 3 (setComponent .cpu 4
    (setComponent .total 10 (newShell (containerKey c2wLabels) c2wLabels 1)))

/-- Witness for C2 amended: with direct total 10 and components 4 and 3,
the theorem yields total = 10 — the direct value, not the component
sum 7. -/
theorem c2_direct_total_never_summed_witness :
    lookupC (passMap c2wTotal c2wCpu c2wGpu [] []) (containerKey c2wLabels) =
      some c2wRecord ∧
    getComponent .total c2wRecord =
      lastDirectValue (sampleEvents c2wTotal) (containerKey c2wLabels) ∧
    getComponent .total c2wRecord = some 10 ∧ ¬getComponent .total c2wRecord = some 7 := by
  refine ⟨by decide, ?_, by decide, by decide⟩
  exact (c2_direct_total_never_summed c2wBackend 100 c2wTotal c2wCpu c2wGpu [] []
    rfl rfl rfl rfl rfl).2 (containerKey c2wLabels) c2wRecord (by decide)

/-- Label set shared by the C4 statements. -/
def c4Labels : Labels :=
  [("container_name", "c4"), ("pod_name", "p"), ("container_namespace", "ns")]

/-- Backend for C4: the total sample at timestamp 10 creates the shell,
the cpu sample at timestamp 20 contributes later. -/
def c4Backend : CMetric → Except String (List InstantSeries)
  | .total => .ok [⟨c4Labels, some (10, 1)⟩]
  | .cpu => .ok [⟨c4Labels, some (20, 5)⟩]
  | .gpu => .ok []
  | .memory => .ok []
  | .other => .ok []

/-- C4 counterexample: a later cpu sample (timestamp 20) contributes its
component to the record, yet the record's timestamp stays 10 — the
timestamp of the first sample seen for the key, not the most recent
contributing one (the merge never updates `timestamp`). -/
theorem c4_counterexample :
    ((get_all_container_metrics c4Backend 100).toOption.getD []).map
        (fun r => (r.timestamp, r.total_power_joules, r.cpu_power_joules)) =
      [(10, some 1, some 5)] ∧
    ¬((10 : ℚ) = 20) := by
  constructor
  · decide
  · decide

/-- C4 amended: after a full container pass every record's timestamp is
the timestamp of the first sample seen for its EntityKey across the five
phases in processing order — not the most recent contributing sample's
timestamp. -/
theorem c4_timestamp_is_first_seen (backend : CMetric → Except String (List InstantSeries))
    (limit : Nat) (s1 s2 s3 s4 s5 : List InstantSeries)
    (h1 : backend .total = .ok s1) (h2 : backend .cpu = .ok s2)
    (h3 : backend .gpu = .ok s3) (h4 : backend .memory = .ok s4)
    (h5 : backend .other = .ok s5) :
    get_all_container_metrics backend limit =
      .ok (((passMap s1 s2 s3 s4 s5).map Prod.snd).take limit) ∧
    ∀ k, (lookupC (passMap s1 s2 s3 s4 s5) k).map ContainerPowerData.timestamp =
      firstSeenTs (allSampleEvents s1 s2 s3 s4 s5) k := by
  refine ⟨get_all_container_metrics_ok backend limit s1 s2 s3 s4 s5 h1 h2 h3 h4 h5, ?_⟩
  intro k
  exact passMap_timestamp s1 s2 s3 s4 s5 k

/-- Witness for C4 amended, applied to the two-sample backend: the record
keeps the first-seen timestamp 10. -/
theorem c4_timestamp_is_first_seen_witness :
    (lookupC (passMap [⟨c4Labels, some (10, 1)⟩] [⟨c4Labels, some (20, 5)⟩] [] [] [])
        (containerKey c4Labels)).map ContainerPowerData.timestamp =
      firstSeenTs (allSampleEvents [⟨c4Labels, some (10, 1)⟩] [⟨c4Labels, some (20, 5)⟩]
        [] [] []) (containerKey c4Labels) ∧
    (lookupC (passMap [⟨c4Labels, some (10, 1)⟩] [⟨c4Labels, some (20, 5)⟩] [] [] [])
        (containerKey c4Labels)).map ContainerPowerData.timestamp = some 10 := by
  refine ⟨?_, by decide⟩
  exact (c4_timestamp_is_first_seen c4Backend 100 [⟨c4Labels, some (10, 1)⟩]
    [⟨c4Labels, some (20, 5)⟩] [] [] [] rfl rfl rfl rfl rfl).2 (containerKey c4Labels)

/-- C10: the container pass caps its output at `limit` records: the
result at a smaller limit is exactly the first `limit` records (in order
of first appearance) of the result at any larger limit, so at most
`limit` records are ever returned, the rest silently dropped. -/
theorem c10_limit_truncation (backend : CMetric → Except String (List InstantSeries))
    (l1 l2 : Nat) (r2 : List ContainerPowerData) (h1 : l1 ≤ l2)
    (h2 : get_all_container_metrics backend l2 = .ok r2) :
    get_all_container_metrics backend l1 = .ok (r2.take l1) ∧ (r2.take l1).length ≤ l1 := by
  unfold get_all_container_metrics at h2 ⊢
  cases hm : containerQueries.foldlM
      (fun m mt => (backend mt).map (mergePhase mt m)) ([] : CMap) with
  | error e =>
    rw [hm] at h2
    cases h2
  | ok m =>
    rw [hm] at h2
    simp only [Except.ok.injEq] at h2
    subst h2
    constructor
    · rw [List.take_take, min_eq_left h1]
    · rw [List.length_take]
      exact min_le_left _ _

/-- Backend for the C10 witness: three distinct entities from the total
query alone. -/
def c10Backend : CMetric → Except String (List InstantSeries)
  | .total => .ok
      [⟨[("container_name", "a"), ("pod_name", "p"), ("container_namespace", "n")],
        some (1, 10)⟩,
       ⟨[("container_name", "b"), ("pod_name", "p"), ("container_namespace", "n")],
        some (2, 20)⟩,
       ⟨[("container_name", "c"), ("pod_name", "p"), ("container_namespace", "n")],
        some (3, 30)⟩]
  | _ => .ok []

/-- The untruncated C10 witness output. -/
def c10AllRecords : List ContainerPowerData :=
  (get_all_container_metrics c10Backend 100).toOption.getD []

/-- Witness for C10: a pass that merges three entities, truncated at
limit 2, returns exactly the first two records. -/
theorem c10_limit_truncation_witness :
    2 ≤ 100 ∧ get_all_container_metrics c10Backend 100 = Except.ok c10AllRecords ∧
    c10AllRecords.length = 3 ∧
    get_all_container_metrics c10Backend 2 = Except.ok (c10AllRecords.take 2) ∧
    (c10AllRecords.take 2).length ≤ 2 := by
  refine ⟨by decide, by decide, by decide, ?_, ?_⟩
  · exact (c10_limit_truncation c10Backend 2 100 c10AllRecords (by decide) (by decide)).1
  · exact (c10_limit_truncation c10Backend 2 100 c10AllRecords (by decide) (by decide)).2
